import Mathlib

/-!
Shallow embedding of the core of the `gtmpc` terminal music player
(package `github.com/jscyril/golang_music_player`) and proofs about it.

The embedding follows the Go source:
  * `api/types.go`            — `Track`, `PlayerStatus`, `RepeatMode`, `PlaybackState`
  * `internal/playlist` queue — `Queue` and its operations
  * `internal/audio/engine.go`— the audio engine command loop and `GetState`
  * `internal/library` scanner— `isSupported`, `ScanFile`
  * `pkg/errors/errors.go`    — the error taxonomy

Go machine integers are modelled as `Int` (with Go's truncated `%` modelled
by `Int.tmod`), `float64` volume levels as `ℚ` (only order comparisons with
0 and 1 occur, on which the two agree), `time.Duration` as `Int`
(nanoseconds).  Go slices of bytes are modelled as references (`Option Nat`,
`none` = nil slice) into an explicit backing-array store where aliasing
matters (the `GetState` deep-copy question); everywhere else lists are used.
Out-of-range slice indexing panics in Go; the model returns `none` / leaves
the value unchanged at those (unreachable from valid states) points, which
is noted at each site.
-/

namespace GMP

/-- `api.Track` (api/types.go, lines 5-17).  `CoverArt []byte` is a slice
header: modelled as an optional reference into a byte-array store
(`none` = nil slice).  `CreatedAt time.Time` is modelled as an integer
timestamp; it plays no role in any operation below. -/
structure Track where
  id : String
  title : String
  artist : String
  album : String
  duration : Int
  filePath : String
  genre : String
  year : Int
  trackNum : Int
  coverArt : Option Nat
  createdAt : Int
deriving Repr, DecidableEq

/-- `api.RepeatMode` (api/types.go, lines 38-44). -/
inductive RepeatMode where
  | RepeatNone
  | RepeatOne
  | RepeatAll
deriving Repr, DecidableEq

/-- `api.PlayerStatus` (api/types.go, lines 29-35). -/
inductive PlayerStatus where
  | Stopped
  | Playing
  | Paused
deriving Repr, DecidableEq

/-! ### The playback queue (internal/playlist, `Queue`) -/

/-- `playlist.Queue` (struct, queue source lines 160-167).  The mutex only
serialises access and is not part of the sequential semantics.  `index` is a
Go `int`, hence `Int`.  `original` is the pre-shuffle ordering, `none` when
the nil slice. -/
structure Queue where
  tracks : List Track
  index : Int
  repeatMode : RepeatMode
  shuffle : Bool
  original : Option (List Track)
deriving Repr, DecidableEq

/-- `playlist.NewQueue`. -/
def NewQueue : Queue :=
  { tracks := [], index := 0, repeatMode := .RepeatNone, shuffle := false,
    original := none }

/-- Go expression `l[i]` on a slice with an `int` index: panics when out of
range; the model returns `none` there (every use below reaches it only with
an in-range index when started from a valid queue). -/
def trackAt (l : List Track) (i : Int) : Option Track :=
  if i < 0 then none else l[i.toNat]?

/-- `Queue.Add` appends tracks (variadic in Go). -/
def Queue.Add (q : Queue) (ts : List Track) : Queue :=
  { q with tracks := q.tracks ++ ts }

/-- `Queue.Set` replaces the track list with a copy of the argument, clears
`original` and resets `index` to 0.  Note the source does NOT touch the
`shuffle` flag. -/
def Queue.Set (q : Queue) (ts : List Track) : Queue :=
  { q with tracks := ts, original := none, index := 0 }

/-- `Queue.Clear`. -/
def Queue.Clear (q : Queue) : Queue :=
  { q with tracks := [], original := none, index := 0 }

/-- `Queue.Current`: nil unless `0 ≤ index < len(tracks)` and the queue is
non-empty. -/
def Queue.Current (q : Queue) : Option Track :=
  if q.tracks.length = 0 ∨ q.index < 0 ∨ (q.tracks.length : Int) ≤ q.index then
    none
  else
    q.tracks[q.index.toNat]?

/-- `Queue.Next`: returns the track moved to (or nil) together with the
mutated queue.  In the `RepeatOne` branch the source returns
`q.tracks[q.index]`, which panics when `index` is out of range; the model
yields `none` there. -/
def Queue.Next (q : Queue) : Option Track × Queue :=
  if q.tracks.length = 0 then (none, q)
  else
    match q.repeatMode with
    | .RepeatOne => (trackAt q.tracks q.index, q)
    | .RepeatAll =>
        let q' := { q with index := (q.index + 1).tmod (q.tracks.length : Int) }
        (trackAt q'.tracks q'.index, q')
    | .RepeatNone =>
        if q.index < (q.tracks.length : Int) - 1 then
          let q' := { q with index := q.index + 1 }
          (trackAt q'.tracks q'.index, q')
        else
          (none, q)

/-- `Queue.Previous`: the `RepeatNone` branch clamps at 0 and re-returns the
current track; `RepeatAll` wraps to the last index. -/
def Queue.Previous (q : Queue) : Option Track × Queue :=
  if q.tracks.length = 0 then (none, q)
  else
    match q.repeatMode with
    | .RepeatOne => (trackAt q.tracks q.index, q)
    | .RepeatAll =>
        let i := q.index - 1
        let i := if i < 0 then (q.tracks.length : Int) - 1 else i
        let q' := { q with index := i }
        (trackAt q'.tracks q'.index, q')
    | .RepeatNone =>
        let q' := if 0 < q.index then { q with index := q.index - 1 } else q
        (trackAt q'.tracks q'.index, q')

/-- The queue and last returned value after calling `Next()` exactly `n`
times in a row (`(none, q)` for zero calls). -/
def nextTimes (q : Queue) : Nat → Option Track × Queue
  | 0 => (none, q)
  | n + 1 => ((nextTimes q n).2).Next

/-- `Queue.JumpTo`. -/
def Queue.JumpTo (q : Queue) (i : Int) : Except String Queue :=
  if i < 0 ∨ (q.tracks.length : Int) ≤ i then .error "index out of bounds"
  else .ok { q with index := i }

/-- `Queue.Remove`: Go's `append(q.tracks[:i], q.tracks[i+1:]...)` followed
by the two cursor adjustments. -/
def Queue.Remove (q : Queue) (i : Int) : Except String Queue :=
  if i < 0 ∨ (q.tracks.length : Int) ≤ i then .error "index out of bounds"
  else
    let ts := q.tracks.take i.toNat ++ q.tracks.drop (i.toNat + 1)
    let idx :=
      if i < q.index then q.index - 1
      else if (ts.length : Int) ≤ q.index ∧ 0 < ts.length then (ts.length : Int) - 1
      else q.index
    .ok { q with tracks := ts, index := idx }

/-- Go's `q.tracks[i], q.tracks[j] = q.tracks[j], q.tracks[i]`; identity when
either index is out of range (never the case at the call sites when started
from a valid queue). -/
def listSwap {α : Type} (l : List α) (i j : Nat) : List α :=
  match l[i]?, l[j]? with
  | some a, some b => (l.set i b).set j a
  | _, _ => l

/-- The Fisher-Yates loop of `Queue.Shuffle`:
`for i := n-1; i > 0; i-- { j := rand.Intn(i+1); swap(i, j) }`.
`rand.Intn (i+1)` is modelled by drawing the next value from `tape` and
reducing it modulo `i+1`; every sequence of in-range draws is realised by
some tape, and every tape yields in-range draws, so the modelled behaviours
are exactly the possible runs.  `k` is the index of the next draw, the
recursion argument is the loop variable `i`. -/
def fyGo (tape : Nat → Nat) (k : Nat) (l : List Track) : Nat → List Track
  | 0 => l
  | i + 1 => fyGo tape (k + 1) (listSwap l (i + 1) (tape k % (i + 2))) i

/-- The whole Fisher-Yates pass over `l`. -/
def fisherYates (tape : Nat → Nat) (l : List Track) : List Track :=
  fyGo tape 0 l (l.length - 1)

/-- The move-current-track-to-front loop of `Queue.Shuffle`: find the FIRST
track whose `ID` equals the current track's `ID` and swap it to position 0
(`break` after the first hit). -/
def moveToFront (cur : Track) (l : List Track) : List Track :=
  match l.findIdx? (fun t => t.id == cur.id) with
  | some i => listSwap l 0 i
  | none => l

/-- `Queue.Shuffle`: no-op for length ≤ 1; saves the original order only when
not already saved; Fisher-Yates shuffles; relocates the current track to
index 0; sets `shuffle`.  Reading `q.tracks[q.index]` panics in Go when the
cursor is out of range; the model leaves the queue unchanged there. -/
def Queue.Shuffle (q : Queue) (tape : Nat → Nat) : Queue :=
  if q.tracks.length ≤ 1 then q
  else
    match trackAt q.tracks q.index with
    | none => q
    | some cur =>
        { tracks := moveToFront cur (fisherYates tape q.tracks),
          index := 0,
          repeatMode := q.repeatMode,
          shuffle := true,
          original := some (q.original.getD q.tracks) }

/-- `Queue.Unshuffle`: restores the saved order, clears `original` and the
`shuffle` flag, and relocates the cursor to the first track of the restored
list whose `ID` matches the one under the cursor; when no track matches the
cursor is left as it was (the loop never fires).  Reading
`q.tracks[q.index]` panics in Go when the cursor is out of range; the model
leaves the queue unchanged there. -/
def Queue.Unshuffle (q : Queue) : Queue :=
  match q.original with
  | none => q
  | some orig =>
      match trackAt q.tracks q.index with
      | none => q
      | some cur =>
          { tracks := orig,
            index :=
              match orig.findIdx? (fun t => t.id == cur.id) with
              | some i => (i : Int)
              | none => q.index,
            repeatMode := q.repeatMode,
            shuffle := false,
            original := none }

/-- `Queue.IsShuffled`. -/
def Queue.IsShuffled (q : Queue) : Bool :=
  q.shuffle

/-- `Queue.SetRepeatMode`. -/
def Queue.SetRepeatMode (q : Queue) (m : RepeatMode) : Queue :=
  { q with repeatMode := m }

/-! ### Errors (pkg/errors/errors.go) -/

/-- The sentinel errors of `pkg/errors/errors.go` (lines 9-16). -/
inductive PlayerError where
  | trackNotFound
  | playlistNotFound
  | invalidFormat
  | playbackFailed
  | emptyQueue
  | invalidVolume
deriving Repr, DecidableEq

/-! ### The audio engine command loop (internal/audio/engine.go) -/

/-- `api.PlaybackState` (api/types.go, lines 47-56) as the engine's `run`
loop mutates it.  `Queue []*Track` and `QueueIndex` are carried along
verbatim; the engine never writes them (they keep their zero values).
`Volume float64` is modelled as `ℚ`; `Position time.Duration` as `Int`. -/
structure PlaybackState where
  currentTrack : Option Track
  status : PlayerStatus
  position : Int
  volume : ℚ
  repeatMode : RepeatMode
  shuffle : Bool
  queue : List Track
  queueIndex : Int
deriving Repr, DecidableEq

/-- The engine state relevant to command processing: the `*PlaybackState`
plus whether a session is open (`streamer`/`ctrl`/`volume` non-nil — they
are set and cleared together, engine.go lines 145-159 and 173-186). -/
structure EngineState where
  state : PlaybackState
  hasCtrl : Bool
deriving Repr, DecidableEq

/-- Commands processed by `run` (engine.go lines 60-103).  `play` carries
whether `os.Open` + `DecodeAudio` succeed for the track, and `seek` whether
the decoder's `Seek` succeeds — those are the only effects of the external
world on the state. -/
inductive Cmd where
  | play (t : Track) (decodeOk : Bool)
  | pause
  | resume
  | stop
  | volume (v : ℚ)
  | seek (pos : Int) (seekOk : Bool)
deriving Repr, DecidableEq

/-- `NewAudioEngine` (engine.go lines 31-42): `Status: StatusStopped`,
`Volume: 0.5`, `Repeat: RepeatNone`, all other fields zero-valued. -/
def initialEngine : EngineState :=
  { state :=
      { currentTrack := none, status := .Stopped, position := 0,
        volume := 1/2, repeatMode := .RepeatNone, shuffle := false,
        queue := [], queueIndex := 0 },
    hasCtrl := false }

/-- `stopPlayback` (engine.go lines 173-186): clears the speaker, closes and
nils the streamer/ctrl/volume, sets `Status = Stopped` and `Position = 0`.
It does not touch `CurrentTrack`. -/
def stopPlayback (e : EngineState) : EngineState :=
  { state := { e.state with status := .Stopped, position := 0 },
    hasCtrl := false }

/-- `playTrack` (engine.go lines 131-171): first `stopPlayback`, then open
and decode; on failure returns an error leaving the state as the stop left
it; on success installs the session and sets `CurrentTrack`/`Status`/
`Position`. -/
def playTrack (t : Track) (decodeOk : Bool) (e : EngineState) : EngineState :=
  let e1 := stopPlayback e
  if decodeOk then
    { state :=
        { e1.state with
          currentTrack := some t
          status := .Playing
          position := 0 },
      hasCtrl := true }
  else e1

/-- One iteration of the `run` command loop (engine.go lines 60-103). -/
def processCmd (e : EngineState) (c : Cmd) : EngineState :=
  match c with
  | .play t decodeOk => playTrack t decodeOk e
  | .pause =>
      if e.hasCtrl then { e with state := { e.state with status := .Paused } }
      else e
  | .resume =>
      if e.hasCtrl then { e with state := { e.state with status := .Playing } }
      else e
  | .stop => stopPlayback e
  | .volume v => { e with state := { e.state with volume := v } }
  | .seek pos seekOk =>
      if e.hasCtrl ∧ seekOk then
        { e with state := { e.state with position := pos } }
      else e

/-- The engine after processing a command sequence, starting from `e`
(the loop is a single consumer, so commands apply in order). -/
def runCmds (e : EngineState) (cs : List Cmd) : EngineState :=
  cs.foldl processCmd e

/-- `AudioEngine.SetVolume` (engine.go lines 232-238): validates the level
synchronously; only a valid level is turned into a `CmdVolume` command and
appended to the command channel (`pending`).  The engine state `e` is what
the already-queued commands will act on; the method itself never touches
it. -/
def SetVolume (e : EngineState) (pending : List Cmd) (v : ℚ) :
    Except PlayerError Unit × EngineState × List Cmd :=
  if v < 0 ∨ 1 < v then (.error .invalidVolume, e, pending)
  else (.ok (), e, pending ++ [.volume v])

/-! ### The library scanner (internal/library, `Scanner`) -/

/-- The fixed format list of `NewScanner` (scanner source lines 26-31). -/
def supportedFormats : List String :=
  [".mp3", ".wav", ".flac"]

/-- The scan loop of Go's `filepath.Ext`: walk the path backwards; stop at a
path separator; on the first `.` return it together with everything after
it.  The argument is the reversed character list, `acc` the characters
already passed (in forward order). -/
def extLoop : List Char → List Char → List Char
  | [], _ => []
  | c :: rest, acc =>
      if c = '/' then []
      else if c = '.' then c :: acc
      else extLoop rest (c :: acc)

/-- Go `filepath.Ext` (on a Unix separator): the suffix beginning at the
final dot in the final path element, empty when there is none. -/
def filepathExt (p : String) : String :=
  String.mk (extLoop p.data.reverse [])

/-- Go `strings.ToLower` restricted to ASCII.  The full Unicode mapping
differs from the ASCII one only on characters that never lower-case into
the ASCII letters of the fixed format list, so `isSupported` is unchanged
by the restriction. -/
def lowerStr (s : String) : String :=
  String.mk (s.data.map Char.toLower)

/-- `Scanner.isSupported` (scanner source lines 39-47): lower-case the
extension and compare against each supported format. -/
def isSupported (p : String) : Bool :=
  supportedFormats.contains (lowerStr (filepathExt p))

/-- `Scanner.ScanFile` (scanner source lines 142-147): reject unsupported
extensions with `ErrInvalidFormat`, otherwise hand the path to the metadata
reader.  The reader (`MetadataReader.Read`, which performs file I/O) is a
parameter, so the rejection provably happens before any extraction is
attempted. -/
def ScanFile (read : String → Except PlayerError Track) (p : String) :
    Except PlayerError Track :=
  if !isSupported p then .error .invalidFormat else read p

/-! ### Concrete tracks and scenario states used by the claims -/

/-- A track with the given `ID`, title and path and zero everything else. -/
def mkTrack (i t p : String) : Track :=
  { id := i, title := t, artist := "", album := "", duration := 0,
    filePath := p, genre := "", year := 0, trackNum := 0, coverArt := none,
    createdAt := 0 }

def trA : Track := mkTrack "a" "A" "/m/a.mp3"
def trB : Track := mkTrack "b" "B" "/m/b.mp3"
def trC : Track := mkTrack "c" "C" "/m/c.mp3"

/-- Queue `[A,B,C]`, cursor 0, `RepeatNone` — the spec's §8 scenario. -/
def c2Queue : Queue :=
  { tracks := [trA, trB, trC], index := 0, repeatMode := .RepeatNone,
    shuffle := false, original := none }

/-- The seven returned values of the call sequence
`Next, Next, Next, Previous, Previous, Previous, Previous` on `c2Queue`. -/
def c2Trace : List (Option Track) :=
  let s1 := c2Queue.Next
  let s2 := s1.2.Next
  let s3 := s2.2.Next
  let s4 := s3.2.Previous
  let s5 := s4.2.Previous
  let s6 := s5.2.Previous
  let s7 := s6.2.Previous
  [s1.1, s2.1, s3.1, s4.1, s5.1, s6.1, s7.1]

/-- The queue reached by `Set([A,B]); Shuffle(); Add(C); JumpTo(2);
Unshuffle()` (a shuffled queue that tracks were added to, the cursor moved
onto an added track).  The tape is irrelevant for a 2-element shuffle
followed by the move-to-front step. -/
def c3Bug : Queue :=
  let q0 := NewQueue.Set [trA, trB]
  let q1 := q0.Shuffle (fun _ => 0)
  let q2 := q1.Add [trC]
  let q3 := match q2.JumpTo 2 with | .ok q => q | .error _ => q2
  q3.Unshuffle

/-- An already-shuffled queue, reached by `Set([A,B,C]); JumpTo(1);
Shuffle()` with the all-zero tape: tracks `[B,C,A]`, saved original
`[A,B,C]`, cursor 0. -/
def c4Pre : Queue :=
  let q0 := NewQueue.Set [trA, trB, trC]
  let q1 := match q0.JumpTo 1 with | .ok q => q | .error _ => q0
  q1.Shuffle (fun _ => 0)

/-- A shuffled two-track queue (`Set([A,B]); Shuffle()`): `shuffle = true`. -/
def c5Q : Queue :=
  (NewQueue.Set [trA, trB]).Shuffle (fun _ => 0)

/-! ### `GetState` and the copy it returns (engine.go lines 240-250)

`GetState` executes `state := *e.state` (a struct copy) and, when
`CurrentTrack` is non-nil, `track := *e.state.CurrentTrack;
state.CurrentTrack = &track` (a copy of the track struct at a fresh
address).  Struct copies duplicate every field value, including slice
headers — so the `CoverArt []byte` backing array (and the `Queue []*Track`
backing array) stay shared between the engine and the snapshot.  To reason
about this the relevant part of the Go heap is made explicit:
`PlaybackState` structs and `Track` structs live at numbered locations,
slice headers are references into backing-array stores. -/

/-- A `PlaybackState` struct as laid out in memory: `CurrentTrack *Track` is
a pointer (a track location, `none` = nil), `Queue []*Track` is a slice
header (a reference into the pointer-array store, `none` = nil slice). -/
structure StateObj where
  currentTrackLoc : Option Nat
  status : PlayerStatus
  position : Int
  volume : ℚ
  repeatMode : RepeatMode
  shuffle : Bool
  queueRef : Option Nat
  queueIndex : Int
deriving Repr, DecidableEq

/-- The heap regions `GetState` can reach: `PlaybackState` structs, `Track`
structs (whose `coverArt` field is a reference into `bytes`), byte backing
arrays, and `[]*Track` backing arrays (lists of track locations).
`nextState`/`nextTrack` are the allocation frontiers: locations at or above
them are unallocated. -/
structure Mem where
  states : Nat → StateObj
  tracks : Nat → Track
  bytes : Nat → List Nat
  ptrs : Nat → List Nat
  nextState : Nat
  nextTrack : Nat

/-- A fully dereferenced track: what an observer sees when reading every
field, following the cover-art slice into its bytes. -/
structure TrackView where
  id : String
  title : String
  artist : String
  album : String
  duration : Int
  filePath : String
  genre : String
  year : Int
  trackNum : Int
  coverArt : Option (List Nat)
  createdAt : Int
deriving Repr, DecidableEq

/-- A fully dereferenced `PlaybackState`. -/
structure StateView where
  currentTrack : Option TrackView
  status : PlayerStatus
  position : Int
  volume : ℚ
  repeatMode : RepeatMode
  shuffle : Bool
  queue : Option (List TrackView)
  queueIndex : Int
deriving Repr, DecidableEq

/-- Dereference a track struct value in memory `m`. -/
def renderTrack (m : Mem) (t : Track) : TrackView :=
  { id := t.id, title := t.title, artist := t.artist, album := t.album,
    duration := t.duration, filePath := t.filePath, genre := t.genre,
    year := t.year, trackNum := t.trackNum,
    coverArt := t.coverArt.map m.bytes, createdAt := t.createdAt }

/-- Dereference a `PlaybackState` struct value in memory `m`. -/
def renderStateObj (m : Mem) (s : StateObj) : StateView :=
  { currentTrack := s.currentTrackLoc.map (fun l => renderTrack m (m.tracks l)),
    status := s.status, position := s.position, volume := s.volume,
    repeatMode := s.repeatMode, shuffle := s.shuffle,
    queue := s.queueRef.map (fun r => (m.ptrs r).map (fun l => renderTrack m (m.tracks l))),
    queueIndex := s.queueIndex }

/-- What the engine itself observes: its `PlaybackState` at location `es`,
fully dereferenced. -/
def engineView (m : Mem) (es : Nat) : StateView :=
  renderStateObj m (m.states es)

/-- A snapshot as the caller observes it: the struct at the returned
location, fully dereferenced. -/
def snapshotView (m : Mem) (sloc : Nat) : StateView :=
  renderStateObj m (m.states sloc)

/-- `GetState` (engine.go lines 240-250): copy the `PlaybackState` struct to
a fresh location; when `CurrentTrack` is non-nil, copy the `Track` struct to
a fresh location and point the copy's `CurrentTrack` at it.  Returns the new
memory and the snapshot's location. -/
def getState (m : Mem) (es : Nat) : Mem × Nat :=
  let s := m.states es
  match s.currentTrackLoc with
  | none =>
      let sloc := m.nextState
      ({ m with
          states := fun l => if l = sloc then s else m.states l,
          nextState := m.nextState + 1 },
       sloc)
  | some tl =>
      let tloc := m.nextTrack
      let sloc := m.nextState
      ({ m with
          tracks := fun l => if l = tloc then m.tracks tl else m.tracks l,
          states := fun l => if l = sloc then { s with currentTrackLoc := some tloc } else m.states l,
          nextTrack := m.nextTrack + 1,
          nextState := m.nextState + 1 },
       sloc)

/-- The ways a caller can mutate the snapshot returned by `GetState`, given
its location `sloc`:
  * assign (any or all of) the fields of the snapshot struct itself;
  * assign the fields of the `Track` struct its `CurrentTrack` points to;
  * write an element of its `CoverArt` byte slice
    (`snap.CurrentTrack.CoverArt[i] = b` — a write through the slice
    header into the backing array). -/
inductive SnapMutation where
  | setStateFields (s : StateObj)
  | setTrackFields (t : Track)
  | writeCoverByte (i b : Nat)
deriving Repr, DecidableEq

/-- Apply a snapshot mutation.  Where Go would dereference a nil pointer or
index a nil slice (and panic), the memory is left unchanged. -/
def applySnapMutation (m : Mem) (sloc : Nat) (mu : SnapMutation) : Mem :=
  match mu with
  | .setStateFields s =>
      { m with states := fun l => if l = sloc then s else m.states l }
  | .setTrackFields t =>
      match (m.states sloc).currentTrackLoc with
      | none => m
      | some tl => { m with tracks := fun l => if l = tl then t else m.tracks l }
  | .writeCoverByte i b =>
      match (m.states sloc).currentTrackLoc with
      | none => m
      | some tl =>
          match (m.tracks tl).coverArt with
          | none => m
          | some bl =>
              { m with bytes := fun l => if l = bl then (m.bytes bl).set i b else m.bytes l }

/-- A mutation that only assigns struct fields (no write through a shared
slice backing array). -/
def isStructWrite : SnapMutation → Bool
  | .writeCoverByte _ _ => false
  | _ => true

/-- The engine's own locations are allocated: its state location is below
the frontier, and so are its current track and every track its queue slice
points at. -/
def engineWF (m : Mem) (es : Nat) : Bool :=
  decide (es < m.nextState) &&
  (match (m.states es).currentTrackLoc with
   | none => true
   | some tl => decide (tl < m.nextTrack)) &&
  (match (m.states es).queueRef with
   | none => true
   | some r => (m.ptrs r).all (fun l => decide (l < m.nextTrack)))

/-- A concrete memory: the engine's state at location 0 is Playing track
location 0, whose cover art is the one-byte array `[1]` at byte location
0. -/
def c7Mem : Mem :=
  { states := fun _ =>
      { currentTrackLoc := some 0, status := .Playing, position := 0,
        volume := 1/2, repeatMode := .RepeatNone, shuffle := false,
        queueRef := none, queueIndex := 0 },
    tracks := fun _ => { mkTrack "a" "A" "/m/a.mp3" with coverArt := some 0 },
    bytes := fun _ => [1],
    ptrs := fun _ => [],
    nextState := 1,
    nextTrack := 1 }

/-- `c7Mem` after `GetState` and the caller writing
`snapshot.CurrentTrack.CoverArt[0] = 9`. -/
def c7Mut : Mem :=
  applySnapMutation (getState c7Mem 0).1 (getState c7Mem 0).2
    (.writeCoverByte 0 9)

/-! ## Theorems -/

/-- Under a valid cursor, `Current` is just the indexing expression. -/
theorem current_eq_trackAt (q : Queue) (h0 : 0 ≤ q.index)
    (hlt : q.index < (q.tracks.length : Int)) :
    q.Current = trackAt q.tracks q.index := by
  have hcond : ¬ (q.tracks.length = 0 ∨ q.index < 0 ∨
      (q.tracks.length : Int) ≤ q.index) := by
    omega
  rw [Queue.Current, if_neg hcond, trackAt, if_neg (not_lt.mpr h0)]

/-- `Next` in RepeatAll mode: wrap the cursor with Go's truncated `%`. -/
theorem next_repeatAll (q : Queue) (hm : q.repeatMode = .RepeatAll)
    (hne : q.tracks.length ≠ 0) :
    q.Next =
      (trackAt q.tracks ((q.index + 1).tmod (q.tracks.length : Int)),
       { q with index := (q.index + 1).tmod (q.tracks.length : Int) }) := by
  simp [Queue.Next, hm, hne]

/-- Iterating `Next` in RepeatAll mode from a valid cursor: after `n` calls
the cursor is `(index + n) mod len`, the track list is untouched, and the
`n`-th call (for `n ≠ 0`) returned the track now under the cursor. -/
theorem nextTimes_repeatAll (q : Queue) (hm : q.repeatMode = .RepeatAll)
    (hne : q.tracks.length ≠ 0) (h0 : 0 ≤ q.index)
    (hlt : q.index < (q.tracks.length : Int)) :
    ∀ n : Nat,
      (nextTimes q n).2 =
        { q with index := (q.index + n) % (q.tracks.length : Int) } ∧
      (n ≠ 0 →
        (nextTimes q n).1 =
          trackAt q.tracks ((q.index + n) % (q.tracks.length : Int))) := by
  intro n
  have hLne : (q.tracks.length : Int) ≠ 0 := by omega
  induction n with
  | zero =>
      refine ⟨?_, fun h => absurd rfl h⟩
      have hidx : (q.index + ((0 : Nat) : Int)) % (q.tracks.length : Int) = q.index := by
        rw [Nat.cast_zero, add_zero, Int.emod_eq_of_lt h0 hlt]
      rw [nextTimes, hidx]
  | succ n ih =>
      have hnn : 0 ≤ (q.index + n) % (q.tracks.length : Int) + 1 := by
        have := Int.emod_nonneg (q.index + n) hLne
        omega
      have hstep :
          ((q.index + n) % (q.tracks.length : Int) + 1).tmod
              (q.tracks.length : Int) =
            (q.index + ((n + 1 : Nat) : Int)) % (q.tracks.length : Int) := by
        rw [Int.tmod_eq_emod hnn (by omega), Int.emod_add_emod]
        congr 1
        push_cast
        ring
      have hnext :
          (nextTimes q (n + 1)) =
            ({ q with index := (q.index + n) % (q.tracks.length : Int) } :
              Queue).Next := by
        rw [nextTimes, ih.1]
      have h2 := next_repeatAll
        { q with index := (q.index + n) % (q.tracks.length : Int) } hm hne
      rw [hnext, h2]
      refine ⟨?_, fun _ => ?_⟩ <;> simp [hstep]


/-- Claim C8: for a non-empty queue in RepeatAll with a valid cursor,
calling `Next()` exactly `len(tracks)` times returns the cursor (and the
whole queue state) to its starting value, and the final call returns the
track that was current before the sequence began. -/
theorem repeatAll_next_cycle (q : Queue) (hm : q.repeatMode = .RepeatAll)
    (hne : q.tracks ≠ []) (h0 : 0 ≤ q.index)
    (hlt : q.index < (q.tracks.length : Int)) :
    (nextTimes q q.tracks.length).2 = q ∧
    (nextTimes q q.tracks.length).1 = q.Current := by
  have hlen : q.tracks.length ≠ 0 := by
    simpa [List.length_eq_zero] using hne
  have hwrap :
      (q.index + ((q.tracks.length : Nat) : Int)) % (q.tracks.length : Int) =
        q.index := by
    rw [Int.add_emod, Int.emod_self, add_zero,
      Int.emod_emod_of_dvd _ dvd_rfl, Int.emod_eq_of_lt h0 hlt]
  obtain ⟨hstate, hval⟩ :=
    nextTimes_repeatAll q hm hlen h0 hlt q.tracks.length
  constructor
  · rw [hstate, hwrap]
  · rw [hval hlen, hwrap, current_eq_trackAt q h0 hlt]

/-- Claim C8 (witness): on `[A,B,C]` in RepeatAll starting at index 1,
three `Next()` calls return to index 1 and the third call returns `B`, the
track current at the start. -/
theorem repeatAll_next_cycle_witness :
    (nextTimes
        { tracks := [trA, trB, trC], index := 1, repeatMode := .RepeatAll,
          shuffle := false, original := none } 3).2 =
      { tracks := [trA, trB, trC], index := 1, repeatMode := .RepeatAll,
        shuffle := false, original := none } ∧
    (nextTimes
        { tracks := [trA, trB, trC], index := 1, repeatMode := .RepeatAll,
          shuffle := false, original := none } 3).1 =
      Queue.Current
        { tracks := [trA, trB, trC], index := 1, repeatMode := .RepeatAll,
          shuffle := false, original := none } :=
  repeatAll_next_cycle _ rfl (by decide) (by decide) (by decide)

/-- Claim C7 (counterexample): `GetState` is not a deep copy — the snapshot
shares the `CoverArt` backing array with the engine's current track.  On
`c7Mem`, writing `snapshot.CurrentTrack.CoverArt[0] = 9` changes both the
engine-internal observable state and the value a subsequent `GetState`
reports. -/
theorem getState_shares_cover_art :
    engineView c7Mut 0 ≠ engineView c7Mem 0 ∧
    snapshotView (getState c7Mut 0).1 (getState c7Mut 0).2 ≠
      engineView c7Mem 0 := by
  decide

/-- Claim C1 (counterexample): after `Play(A)` succeeds and `Stop` is
processed, the engine reports `Status == Stopped` with
`CurrentTrack == A ≠ nil` — `stopPlayback` never clears `CurrentTrack`, so
the claimed invariant `Status == Stopped ⇒ CurrentTrack == nil` fails on
this reachable state. -/
theorem stop_keeps_current_track :
    (runCmds initialEngine [.play trA true, .stop]).state.status = .Stopped ∧
    (runCmds initialEngine [.play trA true, .stop]).state.currentTrack = some trA ∧
    some trA ≠ (none : Option Track) := by
  decide

/-- Claim C1 (amended): processing `Stop` always yields
`Status = Stopped` and `Position = 0` but leaves `CurrentTrack` exactly as
it was (it is not reset to nil); the invariant
`Status == Stopped ⇒ CurrentTrack == nil` does hold of the initial engine
state. -/
theorem stop_transition :
    (∀ e : EngineState,
        (processCmd e .stop).state.status = .Stopped ∧
        (processCmd e .stop).state.position = 0 ∧
        (processCmd e .stop).state.currentTrack = e.state.currentTrack) ∧
    initialEngine.state.status = .Stopped ∧
    initialEngine.state.currentTrack = none :=
  ⟨fun _ => ⟨rfl, rfl, rfl⟩, rfl, rfl⟩

/-- Claim C2 (counterexample): on `[A,B,C]`, index 0, RepeatNone, the call
sequence Next, Next, Next, Previous, Previous, Previous, Previous does NOT
return B, C, nil, C, B, A, A — the fourth call returns B, because the
failed `Next` left the cursor on the last index. -/
theorem c2_trace_ne_claimed :
    c2Trace ≠ [some trB, some trC, none, some trC, some trB, some trA, some trA] := by
  decide

/-- Claim C2 (amended): in RepeatNone mode `Next` at the last index returns
nothing and leaves the queue (cursor included) unchanged, and `Previous` at
index 0 leaves the queue unchanged and returns the current track again; on
the concrete queue `[A,B,C]` starting at index 0 the call sequence
Next, Next, Next, Previous, Previous, Previous, Previous returns
B, C, nil, B, A, A, A. -/
theorem repeatNone_step_semantics :
    (∀ q : Queue, q.repeatMode = .RepeatNone → q.tracks ≠ [] →
        q.index = (q.tracks.length : Int) - 1 → q.Next = (none, q)) ∧
    (∀ q : Queue, q.repeatMode = .RepeatNone → q.tracks ≠ [] → q.index = 0 →
        (q.Previous).2 = q ∧ (q.Previous).1 = q.Current) ∧
    c2Trace = [some trB, some trC, none, some trB, some trA, some trA, some trA] := by
  refine ⟨?_, ?_, by decide⟩
  · intro q hm hne hidx
    have hlen : q.tracks.length ≠ 0 := by
      simpa [List.length_eq_zero] using hne
    simp [Queue.Next, hm, hidx, hlen]
  · intro q hm hne hidx
    have hlen : q.tracks.length ≠ 0 := by
      simpa [List.length_eq_zero] using hne
    have hpos : ¬ ((q.tracks.length : Int) ≤ 0) := by
      omega
    simp [Queue.Previous, Queue.Current, hm, hidx, hlen, hpos, trackAt]

/-- Claim C2 (witness for the amended theorem): `Next` on `[A,B]` at the
last index returns nothing and leaves the queue unchanged; `Previous` on
`[A,B,C]` at index 0 leaves the queue unchanged and returns the current
track. -/
theorem repeatNone_step_semantics_witness :
    Queue.Next
        { tracks := [trA, trB], index := 1, repeatMode := .RepeatNone,
          shuffle := false, original := none } =
      (none,
        { tracks := [trA, trB], index := 1, repeatMode := .RepeatNone,
          shuffle := false, original := none }) ∧
    ((c2Queue.Previous).2 = c2Queue ∧ (c2Queue.Previous).1 = c2Queue.Current) :=
  ⟨repeatNone_step_semantics.1 _ rfl (by decide) (by decide),
   repeatNone_step_semantics.2.1 c2Queue rfl (by decide) rfl⟩

/-- Claim C3: evaluating the operation sequence `Set([A,B]); Shuffle();
Add(C); JumpTo(2); Unshuffle()` — after `Unshuffle` the track list is the
restored `[A,B]` (non-empty) but the cursor is 2, violating
`0 ≤ index < len(tracks)`: `Unshuffle` keeps the old cursor when the track
under it does not occur in the restored order and never clamps it. -/
theorem c3_unshuffle_cursor_out_of_range :
    c3Bug.tracks ≠ [] ∧
    ¬ (0 ≤ c3Bug.index ∧ c3Bug.index < (c3Bug.tracks.length : Int)) := by
  decide

/-- Claim C4 (counterexample): for the reachable, non-empty, already-shuffled
queue `c4Pre` (tracks `[B,C,A]`, saved original `[A,B,C]`),
`Shuffle()` immediately followed by `Unshuffle()` does not restore the
pre-`Shuffle` ordering: `Unshuffle` restores the first-saved original
`[A,B,C]`, not the order `[B,C,A]` current when this `Shuffle` was
called. -/
theorem shuffle_unshuffle_not_pre_order :
    c4Pre.tracks ≠ [] ∧
    ((c4Pre.Shuffle (fun _ => 0)).Unshuffle).tracks ≠ c4Pre.tracks := by
  decide

/-- Claim C5 (counterexample): `Set` does not clear the `shuffle` flag: on a
shuffled queue, after `Set([C])` the queue still reports itself as
shuffled. -/
theorem set_leaves_shuffle_flag :
    c5Q.IsShuffled = true ∧ ¬ ((c5Q.Set [trC]).IsShuffled = false) := by
  decide

/-- Claim C5 (amended): `Set(ts)` replaces the queue contents with `ts`,
resets the cursor to 0 and discards the saved pre-shuffle ordering, but
leaves the `shuffle` flag unchanged, so the queue may still report itself
as shuffled. -/
theorem set_replaces_and_resets (q : Queue) (ts : List Track) :
    (q.Set ts).tracks = ts ∧ (q.Set ts).index = 0 ∧
    (q.Set ts).original = none ∧ (q.Set ts).IsShuffled = q.IsShuffled :=
  ⟨rfl, rfl, rfl, rfl⟩

/-- Claim C6: `SetVolume(v)` with `v < 0` or `v > 1` fails with
`InvalidVolume` leaving the engine state and the command channel exactly as
they were (no command is enqueued, so the stored volume is unchanged); with
`v ∈ [0,1]` it returns ok, enqueues `CmdVolume v`, and processing that
command stores `v` as the engine volume. -/
theorem setVolume_validates (v : ℚ) (e : EngineState) (pending : List Cmd) :
    ((v < 0 ∨ 1 < v) →
      SetVolume e pending v = (.error .invalidVolume, e, pending)) ∧
    (0 ≤ v → v ≤ 1 →
      SetVolume e pending v = (.ok (), e, pending ++ [.volume v]) ∧
      (processCmd e (.volume v)).state.volume = v) := by
  constructor
  · intro h
    simp [SetVolume, h]
  · intro h0 h1
    have h : ¬ (v < 0 ∨ 1 < v) := by
      push_neg
      exact ⟨h0, h1⟩
    exact ⟨by simp [SetVolume, h], rfl⟩

/-- Claim C6 (witness): `SetVolume(3/2)` is rejected with `InvalidVolume`
and nothing reaches the engine; `SetVolume(1/2)` is accepted and processing
the enqueued command stores 1/2. -/
theorem setVolume_validates_witness :
    SetVolume initialEngine [] (3/2) = (.error .invalidVolume, initialEngine, []) ∧
    (SetVolume initialEngine [] (1/2) = (.ok (), initialEngine, [.volume (1/2)]) ∧
      (processCmd initialEngine (.volume (1/2))).state.volume = 1/2) :=
  ⟨(setVolume_validates (3/2) initialEngine []).1 (by norm_num),
   (setVolume_validates (1/2) initialEngine []).2 (by norm_num) (by norm_num)⟩

/-- Claim C9: `ScanFile` rejects a path whose (case-insensitively compared)
extension is not `.mp3`/`.wav`/`.flac` with `InvalidFormat` no matter what
the metadata reader would do — i.e. before any extraction is attempted —
and on a supported extension returns exactly what the metadata reader
returns. -/
theorem scanFile_format_gate (p : String) :
    (isSupported p = false →
      ∀ read : String → Except PlayerError Track,
        ScanFile read p = .error .invalidFormat) ∧
    (isSupported p = true →
      ∀ read : String → Except PlayerError Track,
        ScanFile read p = read p) := by
  constructor
  · intro h read
    simp [ScanFile, h]
  · intro h read
    simp [ScanFile, h]

/-- Claim C9 (witness): `.txt` is rejected with `InvalidFormat` without
consulting the reader; `.MP3` (upper case) is handed to the reader. -/
theorem scanFile_format_gate_witness :
    ScanFile (fun s => .ok (mkTrack "x" "X" s)) "/m/notes.txt" =
      .error .invalidFormat ∧
    ScanFile (fun s => .ok (mkTrack "x" "X" s)) "/m/Song.MP3" =
      .ok (mkTrack "x" "X" "/m/Song.MP3") := by
  refine ⟨(scanFile_format_gate "/m/notes.txt").1 (by decide) _, ?_⟩
  rw [(scanFile_format_gate "/m/Song.MP3").2 (by decide)]

/-- Swapping two entries preserves the length. -/
theorem length_listSwap {α : Type} (l : List α) (i j : Nat) :
    (listSwap l i j).length = l.length := by
  unfold listSwap
  split
  · simp
  · rfl

/-- Swapping two entries preserves membership. -/
theorem mem_listSwap {α : Type} {a : α} {l : List α} (h : a ∈ l) (i j : Nat) :
    a ∈ listSwap l i j := by
  unfold listSwap
  split
  next x y h1 h2 =>
    obtain ⟨hi, -⟩ := List.getElem?_eq_some_iff.mp h1
    obtain ⟨hj, -⟩ := List.getElem?_eq_some_iff.mp h2
    obtain ⟨m, hm⟩ := List.mem_iff_getElem?.mp h
    apply List.mem_iff_getElem?.mpr
    by_cases hmi : m = i
    · refine ⟨j, ?_⟩
      have hj2 : j < (l.set i y).length := by simpa using hj
      rw [List.getElem?_set_self hj2]
      rw [hmi] at hm
      rw [h1] at hm
      rw [hm]
    · by_cases hmj : m = j
      · have hij : i ≠ j := fun hc => hmi (hmj.trans hc.symm)
        refine ⟨i, ?_⟩
        rw [List.getElem?_set_ne (fun hc => hij hc.symm)]
        rw [List.getElem?_set_self hi]
        rw [hmj] at hm
        rw [h2] at hm
        rw [hm]
      · refine ⟨m, ?_⟩
        rw [List.getElem?_set_ne (fun hc => hmj hc.symm)]
        rw [List.getElem?_set_ne (fun hc => hmi hc.symm)]
        exact hm
  next =>
    exact h

/-- Swapping position `i` to the front puts the old `l[i]` at the head. -/
theorem getElem_zero_listSwap {α : Type} (l : List α) (i : Nat)
    (hi : i < l.length) (h0 : 0 < l.length) :
    (listSwap l 0 i)[0]? = l[i]? := by
  unfold listSwap
  split
  next x y h1 h2 =>
    by_cases hi0 : i = 0
    · subst hi0
      rw [List.set_set, List.getElem?_set_self h0, h1]
    · rw [List.getElem?_set_ne hi0, List.getElem?_set_self h0, h2]
  next hno =>
    exact (hno (l.get ⟨0, h0⟩) (l.get ⟨i, hi⟩)
      (List.getElem?_eq_getElem h0) (List.getElem?_eq_getElem hi)).elim

/-- The Fisher-Yates loop preserves the length. -/
theorem length_fyGo (tape : Nat → Nat) :
    ∀ (n k : Nat) (l : List Track), (fyGo tape k l n).length = l.length
  | 0, _, _ => rfl
  | n + 1, k, l => by
      rw [fyGo, length_fyGo tape n (k + 1), length_listSwap]

/-- The Fisher-Yates loop preserves membership. -/
theorem mem_fyGo (tape : Nat → Nat) {a : Track} :
    ∀ (n k : Nat) {l : List Track}, a ∈ l → a ∈ fyGo tape k l n
  | 0, _, _, h => h
  | n + 1, k, _, h => by
      rw [fyGo]
      exact mem_fyGo tape n (k + 1) (mem_listSwap h _ _)

/-- `moveToFront` preserves the length. -/
theorem length_moveToFront (cur : Track) (l : List Track) :
    (moveToFront cur l).length = l.length := by
  unfold moveToFront
  split
  · rw [length_listSwap]
  · rfl

/-- When the sought ID occurs in the list, `moveToFront` puts a track with
that ID at the head. -/
theorem moveToFront_head (cur : Track) (l : List Track) (hm : cur ∈ l) :
    ∃ t : Track, (moveToFront cur l)[0]? = some t ∧ t.id = cur.id := by
  have hex : l.findIdx? (fun t => t.id == cur.id) =
      some (l.findIdx (fun t => t.id == cur.id)) :=
    List.findIdx?_eq_some_of_exists ⟨cur, hm, by simp⟩
  obtain ⟨hi, hp, -⟩ := List.findIdx?_eq_some_iff_getElem.mp hex
  have h0 : 0 < l.length :=
    Nat.lt_of_le_of_lt (Nat.zero_le _) hi
  refine ⟨l.get ⟨_, hi⟩, ?_, by simpa using hp⟩
  unfold moveToFront
  rw [hex]
  show (listSwap l 0 (l.findIdx fun t => t.id == cur.id))[0]? = _
  rw [getElem_zero_listSwap l _ hi h0]
  simp [List.getElem?_eq_getElem hi]

/-- In a list with pairwise-distinct IDs, searching for the ID of the entry
at `n` finds exactly `n`. -/
theorem findIdx_id_self (l : List Track) (hnd : (l.map Track.id).Nodup)
    (n : Nat) (hn : n < l.length) (c : String) (hc : c = (l.get ⟨n, hn⟩).id) :
    l.findIdx? (fun t => t.id == c) = some n := by
  apply List.findIdx?_eq_some_iff_getElem.mpr
  refine ⟨hn, by simp [hc], ?_⟩
  intro j hj
  intro heq
  have hjn : j < l.length := Nat.lt_trans hj hn
  have hid : (l.get ⟨j, hjn⟩).id = c := by simpa using heq
  have hj2 : j < (l.map Track.id).length := by simpa using hjn
  have hn2 : n < (l.map Track.id).length := by simpa using hn
  have hmap : (l.map Track.id)[j] = (l.map Track.id)[n] := by
    simp only [List.getElem_map]
    rw [show l[j] = l.get ⟨j, hjn⟩ from rfl, hid, hc]
    rfl
  have := (List.Nodup.getElem_inj_iff hnd).mp hmap
  omega

/-- `Queue.Shuffle` on a queue of length ≥ 2 with an in-range cursor,
written out. -/
theorem shuffle_eq (q : Queue) (tape : Nat → Nat)
    (hlen : 1 < q.tracks.length) (cur : Track)
    (hcur : trackAt q.tracks q.index = some cur) :
    q.Shuffle tape =
      { tracks := moveToFront cur (fisherYates tape q.tracks), index := 0,
        repeatMode := q.repeatMode, shuffle := true,
        original := some (q.original.getD q.tracks) } := by
  unfold Queue.Shuffle
  rw [if_neg (by omega)]
  simp only [hcur]

/-- `Queue.Unshuffle` on a queue with a saved original, an in-range cursor
and a successful ID search, written out. -/
theorem unshuffle_eq (ts orig : List Track) (idx : Int) (rm : RepeatMode)
    (sh : Bool) (cur : Track) (hcur : trackAt ts idx = some cur) (n : Nat)
    (hfind : orig.findIdx? (fun t => t.id == cur.id) = some n) :
    Queue.Unshuffle
        { tracks := ts, index := idx, repeatMode := rm, shuffle := sh,
          original := some orig } =
      { tracks := orig, index := (n : Int), repeatMode := rm,
        shuffle := false, original := none } := by
  unfold Queue.Unshuffle
  simp only [hcur, hfind]

/-- Claim C4 (amended): for every non-empty queue that is not already
shuffled (no saved original) and whose tracks carry pairwise-distinct IDs,
`Shuffle()` (under any sequence of random draws) immediately followed by
`Unshuffle()` restores exactly the pre-`Shuffle` track ordering and the
cursor (index and current track alike) is exactly where it was before
`Shuffle()` was called.  (For an already-shuffled queue `Unshuffle` restores
the first-saved ordering instead — see the counterexample.) -/
theorem shuffle_unshuffle_roundtrip (q : Queue) (tape : Nat → Nat)
    (horig : q.original = none)
    (hids : (q.tracks.map Track.id).Nodup)
    (h0 : 0 ≤ q.index) (hlt : q.index < (q.tracks.length : Int)) :
    ((q.Shuffle tape).Unshuffle).tracks = q.tracks ∧
    ((q.Shuffle tape).Unshuffle).index = q.index ∧
    ((q.Shuffle tape).Unshuffle).Current = q.Current := by
  by_cases hle : q.tracks.length ≤ 1
  · have hs : q.Shuffle tape = q := by
      unfold Queue.Shuffle
      rw [if_pos hle]
    have hu : q.Unshuffle = q := by
      unfold Queue.Unshuffle
      rw [horig]
    rw [hs, hu]
    exact ⟨rfl, rfl, rfl⟩
  · push_neg at hle
    have hn : q.index.toNat < q.tracks.length := by omega
    have hidx : q.index = (q.index.toNat : Int) := by omega
    have hta : trackAt q.tracks q.index = some (q.tracks.get ⟨q.index.toNat, hn⟩) := by
      rw [trackAt, if_neg (not_lt.mpr h0)]
      simp [List.getElem?_eq_getElem hn]
    have hshlen : (fisherYates tape q.tracks).length = q.tracks.length := by
      rw [fisherYates]
      exact length_fyGo tape _ 0 q.tracks
    have hshmem : q.tracks.get ⟨q.index.toNat, hn⟩ ∈ fisherYates tape q.tracks := by
      rw [fisherYates]
      exact mem_fyGo tape _ 0 (List.get_mem q.tracks _ _)
    obtain ⟨t0, ht0, ht0id⟩ :=
      moveToFront_head (q.tracks.get ⟨q.index.toNat, hn⟩) _ hshmem
    have hmtflen :
        (moveToFront (q.tracks.get ⟨q.index.toNat, hn⟩)
            (fisherYates tape q.tracks)).length = q.tracks.length := by
      rw [length_moveToFront, hshlen]
    have hta0 :
        trackAt
            (moveToFront (q.tracks.get ⟨q.index.toNat, hn⟩)
              (fisherYates tape q.tracks)) 0 = some t0 := by
      rw [trackAt, if_neg (by omega)]
      simpa using ht0
    have hfind :
        q.tracks.findIdx? (fun t => t.id == t0.id) = some q.index.toNat :=
      findIdx_id_self q.tracks hids q.index.toNat hn t0.id ht0id
    have hshq :
        q.Shuffle tape =
          { tracks :=
              moveToFront (q.tracks.get ⟨q.index.toNat, hn⟩)
                (fisherYates tape q.tracks),
            index := 0, repeatMode := q.repeatMode, shuffle := true,
            original := some q.tracks } := by
      rw [shuffle_eq q tape hle _ hta, horig]
      rfl
    have huq :
        (q.Shuffle tape).Unshuffle =
          { tracks := q.tracks, index := (q.index.toNat : Int),
            repeatMode := q.repeatMode, shuffle := false,
            original := none } := by
      rw [hshq]
      exact unshuffle_eq _ _ _ _ _ t0 hta0 _ hfind
    refine ⟨by rw [huq], by rw [huq]; exact hidx.symm, ?_⟩
    rw [huq]
    show Queue.Current _ = q.Current
    unfold Queue.Current
    rw [← hidx]

/-- Claim C4 (witness for the amended theorem): on the unshuffled queue
`[A,B,C]` with cursor 1 and the all-zero tape, `Shuffle(); Unshuffle()`
restores the ordering, the cursor index and the current track. -/
theorem shuffle_unshuffle_roundtrip_witness :
    ((Queue.Shuffle
          { tracks := [trA, trB, trC], index := 1,
            repeatMode := .RepeatNone, shuffle := false, original := none }
          (fun _ => 0)).Unshuffle).tracks =
      Queue.tracks
        { tracks := [trA, trB, trC], index := 1, repeatMode := .RepeatNone,
          shuffle := false, original := none } ∧
    ((Queue.Shuffle
          { tracks := [trA, trB, trC], index := 1,
            repeatMode := .RepeatNone, shuffle := false, original := none }
          (fun _ => 0)).Unshuffle).index =
      Queue.index
        { tracks := [trA, trB, trC], index := 1, repeatMode := .RepeatNone,
          shuffle := false, original := none } ∧
    ((Queue.Shuffle
          { tracks := [trA, trB, trC], index := 1,
            repeatMode := .RepeatNone, shuffle := false, original := none }
          (fun _ => 0)).Unshuffle).Current =
      Queue.Current
        { tracks := [trA, trB, trC], index := 1, repeatMode := .RepeatNone,
          shuffle := false, original := none } :=
  shuffle_unshuffle_roundtrip _ (fun _ => 0) rfl (by decide) (by decide)
    (by decide)

/-- Rendering a track value only consults the byte store. -/
theorem renderTrack_congr (m m' : Mem) (t : Track) (hb : m'.bytes = m.bytes) :
    renderTrack m' t = renderTrack m t := by
  simp [renderTrack, hb]

/-- Rendering a state struct is unchanged between two memories that agree on
the byte store, the pointer-array store, the track pointed at by the struct
and the tracks its queue slice points at. -/
theorem renderStateObj_congr (m m' : Mem) (s : StateObj)
    (hb : m'.bytes = m.bytes) (hp : m'.ptrs = m.ptrs)
    (ht : ∀ tl, s.currentTrackLoc = some tl → m'.tracks tl = m.tracks tl)
    (hq : ∀ r, s.queueRef = some r → ∀ l ∈ m.ptrs r, m'.tracks l = m.tracks l) :
    renderStateObj m' s = renderStateObj m s := by
  have h1 : s.currentTrackLoc.map (fun l => renderTrack m' (m'.tracks l)) =
      s.currentTrackLoc.map (fun l => renderTrack m (m.tracks l)) := by
    cases hcl : s.currentTrackLoc with
    | none => rfl
    | some tl =>
        simp only [Option.map_some']
        rw [ht tl hcl, renderTrack_congr m m' _ hb]
  have h2 : s.queueRef.map
        (fun r => (m'.ptrs r).map (fun l => renderTrack m' (m'.tracks l))) =
      s.queueRef.map
        (fun r => (m.ptrs r).map (fun l => renderTrack m (m.tracks l))) := by
    cases hqr : s.queueRef with
    | none => rfl
    | some r =>
        simp only [Option.map_some', hp]
        congr 1
        apply List.map_congr_left
        intro l hl
        rw [hq r hqr l hl, renderTrack_congr m m' _ hb]
  unfold renderStateObj
  rw [h1, h2]

/-- Unpacking the well-formedness bit. -/
theorem engineWF_spec (m : Mem) (es : Nat) (h : engineWF m es = true) :
    es < m.nextState ∧
    (∀ tl, (m.states es).currentTrackLoc = some tl → tl < m.nextTrack) ∧
    (∀ r, (m.states es).queueRef = some r → ∀ l ∈ m.ptrs r, l < m.nextTrack) := by
  unfold engineWF at h
  rw [Bool.and_eq_true, Bool.and_eq_true] at h
  obtain ⟨⟨ha, hb⟩, hc⟩ := h
  refine ⟨by simpa using ha, ?_, ?_⟩
  · intro tl htl
    rw [htl] at hb
    simpa using hb
  · intro r hr l hl
    rw [hr] at hc
    simpa using List.all_eq_true.mp hc l hl

/-- Two memories that agree at the engine's state struct, on the byte and
pointer stores, and on every allocated track location, render the same
engine view. -/
theorem engineView_congr (m m' : Mem) (es : Nat)
    (hwf : engineWF m es = true)
    (hs : m'.states es = m.states es)
    (hb : m'.bytes = m.bytes) (hp : m'.ptrs = m.ptrs)
    (ht : ∀ l, l < m.nextTrack → m'.tracks l = m.tracks l) :
    engineView m' es = engineView m es := by
  obtain ⟨-, h2, h3⟩ := engineWF_spec m es hwf
  unfold engineView
  rw [hs]
  exact renderStateObj_congr m m' (m.states es) hb hp
    (fun tl htl => ht tl (h2 tl htl))
    (fun r hr l hl => ht l (h3 r hr l hl))

/-- Packing the well-formedness bit. -/
theorem engineWF_intro (m : Mem) (es : Nat)
    (h1 : es < m.nextState)
    (h2 : ∀ tl, (m.states es).currentTrackLoc = some tl → tl < m.nextTrack)
    (h3 : ∀ r, (m.states es).queueRef = some r →
        ∀ l ∈ m.ptrs r, l < m.nextTrack) :
    engineWF m es = true := by
  unfold engineWF
  rw [Bool.and_eq_true, Bool.and_eq_true]
  refine ⟨⟨by simpa using h1, ?_⟩, ?_⟩
  · cases hcl : (m.states es).currentTrackLoc with
    | none => rfl
    | some tl => simpa using h2 tl hcl
  · cases hqr : (m.states es).queueRef with
    | none => rfl
    | some r =>
        apply List.all_eq_true.mpr
        intro l hl
        simpa using h3 r hqr l hl

/-- `GetState` writes only fresh locations: the engine's state struct, the
byte/pointer stores and every already-allocated track are untouched; the
snapshot lives at the old state frontier; the allocation frontiers do not
decrease; the snapshot's current-track pointer (when non-nil) is a fresh
location. -/
theorem getState_preserves (m : Mem) (es : Nat) (hwf : engineWF m es = true) :
    (getState m es).1.states es = m.states es ∧
    (getState m es).1.bytes = m.bytes ∧
    (getState m es).1.ptrs = m.ptrs ∧
    (∀ l, l < m.nextTrack → (getState m es).1.tracks l = m.tracks l) ∧
    (getState m es).2 = m.nextState ∧
    m.nextTrack ≤ (getState m es).1.nextTrack ∧
    m.nextState ≤ (getState m es).1.nextState ∧
    (∀ tl1, ((getState m es).1.states (getState m es).2).currentTrackLoc =
        some tl1 → m.nextTrack ≤ tl1) := by
  obtain ⟨h1, h2, h3⟩ := engineWF_spec m es hwf
  have hes : ¬ (es = m.nextState) := by omega
  cases hcl : (m.states es).currentTrackLoc with
  | none =>
      have hg : getState m es =
          ({ m with
              states := fun l => if l = m.nextState then m.states es
                else m.states l,
              nextState := m.nextState + 1 }, m.nextState) := by
        simp only [getState, hcl]
      rw [hg]
      refine ⟨by simp [hes], rfl, rfl, fun l hl => rfl, rfl, Nat.le_refl _,
        Nat.le_succ _, ?_⟩
      intro tl1 htl1
      simp at htl1
      rw [hcl] at htl1
      cases htl1
  | some tl =>
      have hg : getState m es =
          ({ m with
              tracks := fun l => if l = m.nextTrack then m.tracks tl
                else m.tracks l,
              states := fun l => if l = m.nextState
                then { m.states es with currentTrackLoc := some m.nextTrack }
                else m.states l,
              nextTrack := m.nextTrack + 1,
              nextState := m.nextState + 1 }, m.nextState) := by
        simp only [getState, hcl]
      rw [hg]
      refine ⟨by simp [hes], rfl, rfl,
        fun l hl => by simp [show ¬ (l = m.nextTrack) by omega],
        rfl, Nat.le_succ _, Nat.le_succ _, ?_⟩
      intro tl1 htl1
      simp at htl1
      omega

/-- `GetState` preserves engine well-formedness. -/
theorem getState_wf (m : Mem) (es : Nat) (hwf : engineWF m es = true) :
    engineWF (getState m es).1 es = true := by
  obtain ⟨h1, h2, h3⟩ := engineWF_spec m es hwf
  obtain ⟨hs1, hb1, hp1, ht1, hsl, hnt1, hns1, hfresh⟩ :=
    getState_preserves m es hwf
  apply engineWF_intro
  · omega
  · intro tl htl
    rw [hs1] at htl
    have := h2 tl htl
    omega
  · intro r hr l hl
    rw [hs1] at hr
    rw [hp1] at hl
    have := h3 r hr l hl
    omega

/-- The snapshot `GetState` returns renders to exactly the engine's view at
the moment of the call. -/
theorem getState_snapshot_view (m : Mem) (es : Nat)
    (hwf : engineWF m es = true) :
    snapshotView (getState m es).1 (getState m es).2 = engineView m es := by
  obtain ⟨h1, h2, h3⟩ := engineWF_spec m es hwf
  obtain ⟨hs1, hb1, hp1, ht1, -, -, -, -⟩ := getState_preserves m es hwf
  have hes : ¬ (es = m.nextState) := by omega
  cases hcl : (m.states es).currentTrackLoc with
  | none =>
      have hg : getState m es =
          ({ m with
              states := fun l => if l = m.nextState then m.states es
                else m.states l,
              nextState := m.nextState + 1 }, m.nextState) := by
        simp only [getState, hcl]
      have hss : (getState m es).1.states (getState m es).2 = m.states es := by
        rw [hg]
        simp
      unfold snapshotView engineView
      rw [hss]
      apply renderStateObj_congr m _ _ hb1 hp1
      · intro tl htl
        rw [hcl] at htl
        cases htl
      · intro r hr l hl
        exact ht1 l (h3 r hr l hl)
  | some tl =>
      have htl : tl < m.nextTrack := h2 tl hcl
      have hg : getState m es =
          ({ m with
              tracks := fun l => if l = m.nextTrack then m.tracks tl
                else m.tracks l,
              states := fun l => if l = m.nextState
                then { m.states es with currentTrackLoc := some m.nextTrack }
                else m.states l,
              nextTrack := m.nextTrack + 1,
              nextState := m.nextState + 1 }, m.nextState) := by
        simp only [getState, hcl]
      have hss : (getState m es).1.states (getState m es).2 =
          { m.states es with currentTrackLoc := some m.nextTrack } := by
        rw [hg]
        simp
      have htt : (getState m es).1.tracks m.nextTrack = m.tracks tl := by
        rw [hg]
        simp
      unfold snapshotView engineView
      rw [hss]
      unfold renderStateObj
      simp only [hcl, Option.map_some', StateView.mk.injEq]
      refine ⟨?_, trivial, trivial, trivial, trivial, trivial, ?_, trivial⟩
      · rw [htt, renderTrack_congr m _ _ hb1]
      · rw [hp1]
        cases hqr : (m.states es).queueRef with
        | none => rfl
        | some r =>
            simp only [Option.map_some']
            congr 1
            apply List.map_congr_left
            intro l hl
            rw [ht1 l (h3 r hqr l hl), renderTrack_congr m _ _ hb1]

/-- Claim C7 (amended): the copy `GetState` returns is independent of the
engine for every struct-field assignment: assigning any (or all) fields of
the snapshot struct, or of the `Track` struct its `CurrentTrack` points to,
changes neither the engine's observable state nor what a subsequent
`GetState()` reports.  (Only writes through the shared `CoverArt` backing
array are visible — see the counterexample.) -/
theorem getState_struct_copy_independent (m : Mem) (es : Nat)
    (hwf : engineWF m es = true) (mu : SnapMutation)
    (hmu : isStructWrite mu = true) :
    engineView
        (applySnapMutation (getState m es).1 (getState m es).2 mu) es =
      engineView m es ∧
    snapshotView
        (getState (applySnapMutation (getState m es).1 (getState m es).2 mu) es).1
        (getState (applySnapMutation (getState m es).1 (getState m es).2 mu) es).2 =
      engineView m es := by
  obtain ⟨h1, h2, h3⟩ := engineWF_spec m es hwf
  obtain ⟨hs1, hb1, hp1, ht1, hsl, hnt1, hns1, hfresh⟩ :=
    getState_preserves m es hwf
  have hes : ¬ (es = m.nextState) := by omega
  have hagree :
      (applySnapMutation (getState m es).1 (getState m es).2 mu).states es =
          m.states es ∧
      (applySnapMutation (getState m es).1 (getState m es).2 mu).bytes =
          m.bytes ∧
      (applySnapMutation (getState m es).1 (getState m es).2 mu).ptrs =
          m.ptrs ∧
      (∀ l, l < m.nextTrack →
        (applySnapMutation (getState m es).1 (getState m es).2 mu).tracks l =
          m.tracks l) ∧
      m.nextTrack ≤
        (applySnapMutation (getState m es).1 (getState m es).2 mu).nextTrack ∧
      es < (applySnapMutation (getState m es).1 (getState m es).2 mu).nextState := by
    cases mu with
    | setStateFields s =>
        have hA : applySnapMutation (getState m es).1 (getState m es).2
              (.setStateFields s) =
            { (getState m es).1 with
              states := fun l => if l = (getState m es).2 then s
                else (getState m es).1.states l } := by
          simp only [applySnapMutation]
        rw [hA]
        refine ⟨?_, hb1, hp1, ht1, hnt1, ?_⟩
        · simp [hsl, hes, hs1]
        · show es < (getState m es).1.nextState
          omega
    | setTrackFields t =>
        cases hcl1 : ((getState m es).1.states (getState m es).2).currentTrackLoc with
        | none =>
            have hA : applySnapMutation (getState m es).1 (getState m es).2
                  (.setTrackFields t) = (getState m es).1 := by
              simp only [applySnapMutation, hcl1]
            rw [hA]
            exact ⟨hs1, hb1, hp1, ht1, hnt1, by omega⟩
        | some tl1 =>
            have htl1 : m.nextTrack ≤ tl1 := hfresh tl1 hcl1
            have hA : applySnapMutation (getState m es).1 (getState m es).2
                  (.setTrackFields t) =
                { (getState m es).1 with
                  tracks := fun l => if l = tl1 then t
                    else (getState m es).1.tracks l } := by
              simp only [applySnapMutation, hcl1]
            rw [hA]
            refine ⟨hs1, hb1, hp1, ?_, hnt1, ?_⟩
            · intro l hl
              simp [show ¬ (l = tl1) by omega, ht1 l hl]
            · show es < (getState m es).1.nextState
              omega
    | writeCoverByte i b =>
        exact absurd hmu (by simp [isStructWrite])
  obtain ⟨ha1, ha2, ha3, ha4, ha5, ha6⟩ := hagree
  have hViewEq :
      engineView (applySnapMutation (getState m es).1 (getState m es).2 mu) es =
        engineView m es :=
    engineView_congr m _ es hwf ha1 ha2 ha3 ha4
  have hwf2 :
      engineWF (applySnapMutation (getState m es).1 (getState m es).2 mu) es =
        true := by
    apply engineWF_intro
    · exact ha6
    · intro tl htl
      rw [ha1] at htl
      have := h2 tl htl
      omega
    · intro r hr l hl
      rw [ha1] at hr
      rw [ha3] at hl
      have := h3 r hr l hl
      omega
  have hsnap := getState_snapshot_view _ es hwf2
  exact ⟨hViewEq, hsnap.trans hViewEq⟩

/-- Claim C7 (witness for the amended theorem): on `c7Mem`, re-assigning
every field of the snapshot's current-track struct changes neither the
engine view nor what the next `GetState` reports. -/
theorem getState_struct_copy_independent_witness :
    engineView
        (applySnapMutation (getState c7Mem 0).1 (getState c7Mem 0).2
          (.setTrackFields (mkTrack "z" "Z" "/m/z.mp3"))) 0 =
      engineView c7Mem 0 ∧
    snapshotView
        (getState (applySnapMutation (getState c7Mem 0).1 (getState c7Mem 0).2
            (.setTrackFields (mkTrack "z" "Z" "/m/z.mp3"))) 0).1
        (getState (applySnapMutation (getState c7Mem 0).1 (getState c7Mem 0).2
            (.setTrackFields (mkTrack "z" "Z" "/m/z.mp3"))) 0).2 =
      engineView c7Mem 0 :=
  getState_struct_copy_independent c7Mem 0 (by decide) _ (by decide)

/-- Claim C10: on an empty queue, `Current`, `Next` and `Previous` all
return nil and return the queue completely unchanged (contents, cursor,
repeat mode, shuffle state and saved original included). -/
theorem empty_queue_noop (q : Queue) (h : q.tracks = []) :
    q.Current = none ∧ q.Next = (none, q) ∧ q.Previous = (none, q) := by
  refine ⟨?_, ?_, ?_⟩ <;> simp [Queue.Current, Queue.Next, Queue.Previous, h]

/-- Claim C10 (witness): the fresh queue is empty and all three operations
return nil leaving it unchanged. -/
theorem empty_queue_noop_witness :
    NewQueue.Current = none ∧ NewQueue.Next = (none, NewQueue) ∧
    NewQueue.Previous = (none, NewQueue) :=
  empty_queue_noop NewQueue rfl

end GMP
